import Mathlib

/-!
Shallow embedding of macropy's pattern-matcher algebra
(`macropy/experimental/pattern.py`) and scope-tracking walker
(`macropy/core/analysis.py`), with theorems checking the system
specification against the code.
-/

set_option maxHeartbeats 1000000

namespace MacroPy

/-! ### Python runtime values (the fragment the matcher algebra consumes) -/

/-- Runtime values: ints, strings, booleans, `None`, tuples, lists and
class instances.  An instance records the names of the classes in its MRO
(for `isinstance` checks) and its attribute dictionary. -/
inductive Value : Type where
  | int (n : Int)
  | str (s : String)
  | bool (b : Bool)
  | none
  | tuple (elts : List Value)
  | list (elts : List Value)
  | obj (classes : List String) (attrs : List (String × Value))

mutual

/-- Structural equality on values, playing the role of Python `==`
in `LiteralMatcher.match` (`self.val != matchee`). -/
def Value.beq : Value → Value → Bool
  | .int a, .int b => a == b
  | .str a, .str b => a == b
  | .bool a, .bool b => a == b
  | .none, .none => true
  | .tuple a, .tuple b => Value.beqList a b
  | .list a, .list b => Value.beqList a b
  | .obj c1 a1, .obj c2 a2 => c1 == c2 && Value.beqAttrs a1 a2
  | _, _ => false

/-- Elementwise equality of value lists. -/
def Value.beqList : List Value → List Value → Bool
  | [], [] => true
  | x :: xs, y :: ys => Value.beq x y && Value.beqList xs ys
  | _, _ => false

/-- Equality of attribute dictionaries (as ordered association lists). -/
def Value.beqAttrs : List (String × Value) → List (String × Value) → Bool
  | [], [] => true
  | (k1, v1) :: xs, (k2, v2) :: ys =>
      k1 == k2 && Value.beq v1 v2 && Value.beqAttrs xs ys
  | _, _ => false

end

/-- Python `hasattr(obj, k)` for our object values (non-objects have no
attributes in the fragment we model). -/
def hasattr (v : Value) (k : String) : Bool :=
  match v with
  | .obj _ attrs => attrs.any (fun p => p.1 == k)
  | _ => false

/-- Python `getattr(obj, k, dflt)`: attribute lookup with a default. -/
def getattr (v : Value) (k : String) (dflt : Value) : Value :=
  match v with
  | .obj _ attrs =>
      match attrs.lookup k with
      | some x => x
      | Option.none => dflt
  | _ => dflt

/-- A Python class as seen by `ClassMatcher`: its name, the parameter list
of its `__init__` (as reported by `inspect.getargspec`, including `self`),
and the optional `__unapply__` hook. -/
structure PyClass : Type where
  name : String
  initArgs : List String
  unapply : Option (Value → List String →
      Except String (List Value × List (String × Value)))

/-- Python `isinstance(v, c)`: the object's class list contains `c`'s name. -/
def isinstance (v : Value) (c : PyClass) : Bool :=
  match v with
  | .obj classes _ => classes.contains c.name
  | _ => false

/-! ### The matcher algebra -/

/-- Errors a match can raise: `PatternMatchException` with its message, or
a raw `KeyError` (reachable only through a custom `__unapply__` that
returns keys absent from `kwMatchers`). -/
inductive MatchErr : Type where
  | pm (msg : String)
  | keyErr (k : String)

/-- The matcher tree, one constructor per concrete `Matcher` subclass of
`pattern.py`. -/
inductive Matcher : Type where
  | literal (val : Value)
  | name (n : String)
  | wildcard
  | tuple (matchers : List Matcher)
  | list (matchers : List Matcher)
  | parallel (matcher1 matcher2 : Matcher)
  | cls (clazz : PyClass) (positionalMatchers : List Matcher)
      (kwMatchers : List (String × Matcher))

/-- Modelled from the spec: `macropy.core.util.flatten` (not under `src/`),
the one-level concatenation used to take "the union of sub-matcher bound
names" as a list. -/
def flatten {α : Type} (xss : List (List α)) : List α := xss.flatten

/-- Source `_vars_are_disjoint`: a name list has no duplicates iff its
length equals the size of its set of elements. -/
def vars_are_disjoint (var_names : List String) : Bool :=
  var_names.length == var_names.dedup.length

mutual

/-- Source `var_names` of each matcher subclass.  (For `ClassMatcher` the
source flattens over `positionalMatchers + list(kwMatchers.values())`;
flattening the two runs separately yields the same list.) -/
def Matcher.var_names : Matcher → List String
  | .literal _ => []
  | .name n => [n]
  | .wildcard => ["_"]
  | .tuple ms => flatten (varNamesList ms)
  | .list ms => flatten (varNamesList ms)
  | .parallel m1 m2 => flatten [m1.var_names, m2.var_names]
  | .cls _ pos kw => flatten (varNamesList pos ++ varNamesKw kw)

/-- Helper: `[m.var_names() for m in matchers]`. -/
def varNamesList : List Matcher → List (List String)
  | [] => []
  | m :: ms => m.var_names :: varNamesList ms

/-- Helper: `[m.var_names() for m in kwMatchers.values()]`. -/
def varNamesKw : List (String × Matcher) → List (List String)
  | [] => []
  | (_, m) :: ms => m.var_names :: varNamesKw ms

end

/-- The `ClassMatcher` variable-name run over `pos ++ kw.map Prod.snd`
coincides with the two runs concatenated. -/
theorem varNamesList_append_map_snd (pos : List Matcher)
    (kw : List (String × Matcher)) :
    varNamesList (pos ++ kw.map Prod.snd) =
      varNamesList pos ++ varNamesKw kw := by
  induction pos with
  | nil =>
      simp only [List.nil_append]
      induction kw with
      | nil => rfl
      | cons hd tl ih =>
          obtain ⟨k, m⟩ := hd
          simp [varNamesList, varNamesKw, ih]
  | cons hd tl ih => simp [varNamesList, ih]

/-- Source `TupleMatcher.__init__`: store the sub-matchers, raising
`PatternVarConflict` when the flattened variable names collide. -/
def TupleMatcher.make (matchers : List Matcher) : Except Unit Matcher :=
  if vars_are_disjoint (flatten (varNamesList matchers)) then
    .ok (.tuple matchers)
  else .error ()

/-- Source `ListMatcher.__init__` with the same eager conflict check. -/
def ListMatcher.make (matchers : List Matcher) : Except Unit Matcher :=
  if vars_are_disjoint (flatten (varNamesList matchers)) then
    .ok (.list matchers)
  else .error ()

/-- Source `ParallelMatcher.__init__` with the same eager conflict check. -/
def ParallelMatcher.make (matcher1 matcher2 : Matcher) : Except Unit Matcher :=
  if vars_are_disjoint (flatten [matcher1.var_names, matcher2.var_names]) then
    .ok (.parallel matcher1 matcher2)
  else .error ()

/-- Source `ClassMatcher.__init__` with the same eager conflict check over
positional matchers followed by the keyword matchers' values. -/
def ClassMatcher.make (clazz : PyClass) (positionalMatchers : List Matcher)
    (kwMatchers : List (String × Matcher)) : Except Unit Matcher :=
  if vars_are_disjoint (flatten
      (varNamesList (positionalMatchers ++ kwMatchers.map Prod.snd))) then
    .ok (.cls clazz positionalMatchers kwMatchers)
  else .error ()

/-- Source `ClassMatcher.default_unapply`, keyword half: check
`hasattr` for each keyword key in order, building the `kw_dict`
(raising on the first missing attribute). -/
def buildKwDict (matchee : Value) : List String →
    Except MatchErr (List (String × Value))
  | [] => .ok []
  | k :: rest =>
      if hasattr matchee k then do
        let d ← buildKwDict matchee rest
        pure ((k, getattr matchee k Value.none) :: d)
      else .error (.pm ("Keyword argument match failed: no attribute "
        ++ k))

/-- Source `ClassMatcher.default_unapply`, positional half
(`genPosValues`): one `getattr(matchee, arg, None)` per non-`self`
constructor parameter. -/
def posValues (clazz : PyClass) (matchee : Value) : List Value :=
  (clazz.initArgs.filter (fun a => a ≠ "self")).map
    (fun a => getattr matchee a Value.none)

/-- Source `ClassMatcher.default_unapply`: isinstance check, then the
positional values and the keyword dictionary. -/
def default_unapply (clazz : PyClass) (matchee : Value)
    (kw_keys : List String) :
    Except MatchErr (List Value × List (String × Value)) :=
  if isinstance matchee clazz then do
    let kw_dict ← buildKwDict matchee kw_keys
    pure (posValues clazz matchee, kw_dict)
  else .error (.pm ("Matchee should be of type " ++ clazz.name))

/-- Bound on the size of a matcher found by `lookup` in a keyword list,
needed for termination of `Matcher.match'`. -/
theorem sizeOf_lookup_lt : ∀ (kws : List (String × Matcher)) (k : String)
    (m : Matcher), kws.lookup k = some m → sizeOf m < sizeOf kws := by
  intro kws
  induction kws with
  | nil => intro k m h; simp [List.lookup] at h
  | cons hd tl ih =>
      intro k m h
      obtain ⟨k', m'⟩ := hd
      rw [List.lookup] at h
      split at h
      · injection h with h'
        subst h'
        simp only [List.cons.sizeOf_spec, Prod.mk.sizeOf_spec]
        omega
      · have := ih k m h
        simp only [List.cons.sizeOf_spec, Prod.mk.sizeOf_spec]
        omega

mutual

/-- Source `match` of each matcher subclass: bindings on success, a raised
error on failure. -/
def Matcher.match' : Matcher → Value → Except MatchErr (List (String × Value))
  | .literal val, matchee =>
      if Value.beq val matchee then .ok []
      else .error (.pm "Literal match failed")
  | .name n, matchee => .ok [(n, matchee)]
  | .wildcard, _ => .ok [("_", Value.int 3)]
  | .tuple ms, matchee =>
      match matchee with
      | .tuple elts =>
          if elts.length = ms.length then matchList ms elts
          else .error (.pm ("Expected tuple of " ++ toString ms.length
            ++ " elements"))
      | _ => .error (.pm ("Expected tuple of " ++ toString ms.length
            ++ " elements"))
  | .list ms, matchee =>
      match matchee with
      | .list elts =>
          if elts.length = ms.length then matchList ms elts
          else .error (.pm ("Expected list of length " ++ toString ms.length))
      | _ => .error (.pm ("Expected list of length " ++ toString ms.length))
  | .parallel m1 m2, matchee => do
      let u1 ← m1.match' matchee
      let u2 ← m2.match' matchee
      pure (u1 ++ u2)
  | .cls clazz pos kw, matchee =>
      match clazz.unapply with
      | some f =>
          match f matchee (kw.map Prod.fst) with
          | .error msg => .error (.pm msg)
          | .ok (pos_vals, kw_dict) => do
              let u1 ← matchList pos pos_vals
              let u2 ← matchKw kw kw_dict
              pure (u1 ++ u2)
      | Option.none => do
          let (pos_vals, kw_dict) ← default_unapply clazz matchee
            (kw.map Prod.fst)
          let u1 ← matchList pos pos_vals
          let u2 ← matchKw kw kw_dict
          pure (u1 ++ u2)
termination_by m _ => (sizeOf m, 0)

/-- Source `zip(self.matchers, matchee)` loop: run each sub-matcher against
the corresponding element, truncating at the shorter list, concatenating
bindings and propagating the first failure. -/
def matchList : List Matcher → List Value →
    Except MatchErr (List (String × Value))
  | m :: ms, v :: vs => do
      let u ← m.match' v
      let rest ← matchList ms vs
      pure (u ++ rest)
  | _, _ => .ok []
termination_by ms _ => (sizeOf ms, 0)

/-- Source `for key, val in kw_dict.items(): self.kwMatchers[key].match(val)`
loop over the keyword dictionary. -/
def matchKw (kws : List (String × Matcher)) :
    List (String × Value) → Except MatchErr (List (String × Value))
  | [] => .ok []
  | (k, v) :: rest =>
      match hm : kws.lookup k with
      | some m => do
          let u ← m.match' v
          let d ← matchKw kws rest
          pure (u ++ d)
      | Option.none => .error (.keyErr k)
termination_by d => (sizeOf kws, sizeOf d)
decreasing_by
  all_goals first
    | decreasing_tactic
    | (simp_wf; apply Prod.Lex.left; exact sizeOf_lookup_lt kws k m hm)

end

/-! ### Python AST fragment for the Scope Tracker (`analysis.py`, PY3) -/

mutual

/-- Expressions of the analysed AST fragment. -/
inductive PExpr : Type where
  | name (id : String)
  | num (n : Int)
  | lam (args : PArgs) (body : PExpr)
  | listComp (elt : PExpr) (generators : List PComp)
  | setComp (elt : PExpr) (generators : List PComp)
  | genExp (elt : PExpr) (generators : List PComp)
  | dictComp (key : PExpr) (value : PExpr) (generators : List PComp)
  | attr (value : PExpr) (attrName : String)
  | subscript (value : PExpr) (index : PExpr)
  | call (func : PExpr) (callArgs : List PExpr)
  | tup (elts : List PExpr)

/-- A comprehension clause: `for target in iter if ifs...`. -/
inductive PComp : Type where
  | mk (target : PExpr) (iter : PExpr) (ifs : List PExpr)

/-- A PY3 `arguments` node: positional parameter names, `*`/`**`
parameters, and default expressions. -/
inductive PArgs : Type where
  | mk (args : List String) (vararg : Option String) (kwarg : Option String)
      (defaults : List PExpr)

/-- Statements of the analysed AST fragment. -/
inductive PStmt : Type where
  | functionDef (name : String) (args : PArgs) (body : List PStmt)
  | classDef (name : String) (bases : List PExpr) (body : List PStmt)
  | assign (targets : List PExpr) (value : PExpr)
  | exprStmt (value : PExpr)
  | forStmt (target : PExpr) (iter : PExpr) (body : List PStmt)
  | withStmt (items : List PWithItem) (body : List PStmt)
  | tryStmt (body : List PStmt) (handlers : List PHandler)
  | pass

/-- A `with` item: context-manager expression and optional `as` target. -/
inductive PWithItem : Type where
  | mk (context_expr : PExpr) (optional_vars : Option PExpr)

/-- A PY3 exception handler with a bound name. -/
inductive PHandler : Type where
  | mk (typ : Option PExpr) (name : String) (body : List PStmt)

end

/-- The binding node a scope entry points at: a `Name` expression, a
defining statement, or a bare `arg` object (PY3 `vararg`/`kwarg`). -/
inductive PBind : Type where
  | expr (e : PExpr)
  | stmt (s : PStmt)
  | argname (s : String)

/-- A scope mapping as an association list; later entries shadow earlier
ones (the rightmost binding for a key is the dictionary's value). -/
abbrev Scope := List (String × PBind)

/-- Modelled from the spec: `macropy.core.util.merge_dicts` (not under
`src/`), the right-biased merge building a fresh mapping in which later
dictionaries shadow earlier ones. -/
def merge_dicts (ds : List Scope) : Scope := ds.flatten

/-- Python `del scope[k]` on our association lists: drop the key.  (The
source raises `KeyError` when the key is absent; the traversals analysed
here only delete a class's own name, which is in scope at its
definition.) -/
def Scope.remove (s : Scope) (k : String) : Scope :=
  s.filter (fun p => p.1 ≠ k)

/-- The distinct names visible in a scope, in first-occurrence order. -/
def Scope.names (s : Scope) : List String := (s.map Prod.fst).dedup

/-- Whether a name is visible in a scope. -/
def Scope.hasName (s : Scope) (k : String) : Bool :=
  s.any (fun p => p.1 == k)

mutual

/-- Source `find_names` walker: collect every `Name` (with the node
itself), stopping at `Attribute` and `Subscript`. -/
def find_names : PExpr → List (String × PBind)
  | .name id => [(id, .expr (.name id))]
  | .num _ => []
  | .lam args body => find_names_args args ++ find_names body
  | .listComp elt gens => find_names elt ++ find_names_comps gens
  | .setComp elt gens => find_names elt ++ find_names_comps gens
  | .genExp elt gens => find_names elt ++ find_names_comps gens
  | .dictComp k v gens =>
      find_names k ++ find_names v ++ find_names_comps gens
  | .attr _ _ => []
  | .subscript _ _ => []
  | .call f args => find_names f ++ find_names_list args
  | .tup elts => find_names_list elts

/-- `find_names` over a list of expressions, left to right. -/
def find_names_list : List PExpr → List (String × PBind)
  | [] => []
  | e :: rest => find_names e ++ find_names_list rest

/-- `find_names` descending through comprehension clauses. -/
def find_names_comps : List PComp → List (String × PBind)
  | [] => []
  | .mk t it ifs :: rest =>
      find_names t ++ find_names it ++ find_names_list ifs ++
        find_names_comps rest

/-- `find_names` descending through an `arguments` node (PY3 `arg`
objects hold no `Name` children; only the defaults do). -/
def find_names_args : PArgs → List (String × PBind)
  | .mk _ _ _ defaults => find_names_list defaults

end

/-- Source `find_names` over a `with` statement's items list. -/
def find_names_items : List PWithItem → List (String × PBind)
  | [] => []
  | .mk ce ov :: rest =>
      find_names ce ++
        (match ov with
          | some e => find_names e
          | Option.none => []) ++
        find_names_items rest

mutual

/-- Source `find_assignments` walker over a statement list: collect
function/class names (stopping there) and assignment-target names,
descending into compound statements. -/
def find_assignments : List PStmt → List (String × PBind)
  | [] => []
  | s :: rest => find_assignments_stmt s ++ find_assignments rest

/-- Per-statement case of `find_assignments`. -/
def find_assignments_stmt : PStmt → List (String × PBind)
  | .functionDef nm args body => [(nm, .stmt (.functionDef nm args body))]
  | .classDef nm bases body => [(nm, .stmt (.classDef nm bases body))]
  | .assign targets _ => find_names_list targets
  | .exprStmt _ => []
  | .forStmt _ _ body => find_assignments body
  | .withStmt _ body => find_assignments body
  | .tryStmt body handlers =>
      find_assignments body ++ find_assignments_handlers handlers
  | .pass => []

/-- `find_assignments` descending through exception handlers. -/
def find_assignments_handlers : List PHandler → List (String × PBind)
  | [] => []
  | .mk _ _ body :: rest =>
      find_assignments body ++ find_assignments_handlers rest

end

/-- Source `extract_arg_names` (PY3 branch): the `vararg`/`kwarg` names
mapped to their `arg` objects, then each positional parameter mapped to a
fresh `Name` node. -/
def extract_arg_names : PArgs → List (String × PBind)
  | .mk args vararg kwarg _ =>
      (match vararg with
        | some v => [(v, PBind.argname v)]
        | Option.none => []) ++
      (match kwarg with
        | some v => [(v, PBind.argname v)]
        | Option.none => []) ++
      args.map (fun n => (n, PBind.expr (.name n)))

/-- The accumulated iteration-variable dictionary after a run of
comprehension clauses (`iterator_vars` at the end of the loop). -/
def compVars : List PComp → Scope
  | [] => []
  | .mk t _ _ :: rest => find_names t ++ compVars rest

/-- A position in the traversed tree, for recording per-node scopes. -/
inductive PNode : Type where
  | expr (e : PExpr)
  | stmt (s : PStmt)
  | args (a : PArgs)
  | comp (c : PComp)
  | item (w : PWithItem)
  | handler (h : PHandler)

mutual

/-- Modelled from the spec: the generic `Walker` traversal (not under
`src/`) wrapped by `Scoped.func`, specialised to collecting the `scope`
context each node is visited with.  Each alternative records the node with
its own scope and recurses into the children in AST field order, giving
the children singled out by `Scoped.func` their extended scopes. -/
def scopesExpr : PExpr → Scope → List (PNode × Scope)
  | .name id, s => [(.expr (.name id), s)]
  | .num n, s => [(.expr (.num n), s)]
  | .lam args body, s =>
      (.expr (.lam args body), s) ::
        (scopesArgs args s ++
          scopesExpr body (merge_dicts [s, extract_arg_names args]))
  | .listComp elt gens, s =>
      (.expr (.listComp elt gens), s) ::
        (scopesExpr elt (merge_dicts [s, compVars gens]) ++
          scopesComps gens s [])
  | .setComp elt gens, s =>
      (.expr (.setComp elt gens), s) ::
        (scopesExpr elt (merge_dicts [s, compVars gens]) ++
          scopesComps gens s [])
  | .genExp elt gens, s =>
      (.expr (.genExp elt gens), s) ::
        (scopesExpr elt (merge_dicts [s, compVars gens]) ++
          scopesComps gens s [])
  | .dictComp k v gens, s =>
      (.expr (.dictComp k v gens), s) ::
        (scopesExpr k (merge_dicts [s, compVars gens]) ++
          scopesExpr v (merge_dicts [s, compVars gens]) ++
          scopesComps gens s [])
  | .attr v a, s => (.expr (.attr v a), s) :: scopesExpr v s
  | .subscript v i, s =>
      (.expr (.subscript v i), s) :: (scopesExpr v s ++ scopesExpr i s)
  | .call f args, s =>
      (.expr (.call f args), s) :: (scopesExpr f s ++ scopesExprList args s)
  | .tup elts, s => (.expr (.tup elts), s) :: scopesExprList elts s

/-- Traversal of an expression list, each element with the same scope. -/
def scopesExprList : List PExpr → Scope → List (PNode × Scope)
  | [], _ => []
  | e :: rest, s => scopesExpr e s ++ scopesExprList rest s

/-- Traversal of comprehension clauses: `acc` is the `iterator_vars`
dictionary accumulated from the targets of the clauses already passed;
each clause's target and iterable see `acc`, its `ifs` additionally see
its own target, and the next clauses accumulate the target. -/
def scopesComps : List PComp → Scope → Scope → List (PNode × Scope)
  | [], _, _ => []
  | .mk t it ifs :: rest, s, acc =>
      (.comp (.mk t it ifs), s) ::
        (scopesExpr t (merge_dicts [s, acc]) ++
          scopesExpr it (merge_dicts [s, acc]) ++
          scopesExprList ifs (merge_dicts [s, acc ++ find_names t]) ++
          scopesComps rest s (acc ++ find_names t))

/-- Traversal of an `arguments` node; the default expressions inherit the
scope assigned to the node. -/
def scopesArgs : PArgs → Scope → List (PNode × Scope)
  | .mk args vararg kwarg defaults, s =>
      (.args (.mk args vararg kwarg defaults), s) ::
        scopesExprList defaults s

/-- Traversal of a statement, with the scope extensions of
`Scoped.func`. -/
def scopesStmt : PStmt → Scope → List (PNode × Scope)
  | .functionDef nm args body, s =>
      (.stmt (.functionDef nm args body), s) ::
        (scopesArgs args
            (merge_dicts [s, [(nm, .stmt (.functionDef nm args body))]]) ++
          scopesStmtList body
            (merge_dicts [s, [(nm, .stmt (.functionDef nm args body))],
              extract_arg_names args, find_assignments body]))
  | .classDef nm bases body, s =>
      (.stmt (.classDef nm bases body), s) ::
        (scopesExprList bases (Scope.remove (merge_dicts [s]) nm) ++
          scopesStmtList body
            (Scope.remove (merge_dicts [s, find_assignments body]) nm))
  | .assign targets value, s =>
      (.stmt (.assign targets value), s) ::
        (scopesExprList targets s ++ scopesExpr value s)
  | .exprStmt v, s => (.stmt (.exprStmt v), s) :: scopesExpr v s
  | .forStmt t it body, s =>
      (.stmt (.forStmt t it body), s) ::
        (scopesExpr t s ++ scopesExpr it s ++
          scopesStmtList body (merge_dicts [s, find_names t]))
  | .withStmt items body, s =>
      (.stmt (.withStmt items body), s) ::
        (scopesItems items s ++
          scopesStmtList body (merge_dicts [s, find_names_items items]))
  | .tryStmt body handlers, s =>
      (.stmt (.tryStmt body handlers), s) ::
        (scopesStmtList body s ++ scopesHandlers handlers s)
  | .pass, s => [(.stmt .pass, s)]

/-- Traversal of a statement list, each element with the same scope. -/
def scopesStmtList : List PStmt → Scope → List (PNode × Scope)
  | [], _ => []
  | st :: rest, s => scopesStmt st s ++ scopesStmtList rest s

/-- Traversal of `with` items; context expressions and `as` targets
inherit the statement's own scope. -/
def scopesItems : List PWithItem → Scope → List (PNode × Scope)
  | [], _ => []
  | .mk ce ov :: rest, s =>
      (.item (.mk ce ov), s) ::
        (scopesExpr ce s ++
          (match ov with
            | some e => scopesExpr e s
            | Option.none => []) ++
          scopesItems rest s)

/-- Traversal of exception handlers; the handler body's scope is extended
with the handler's bound name (mapped to a fresh `Name` node). -/
def scopesHandlers : List PHandler → Scope → List (PNode × Scope)
  | [], _ => []
  | .mk typ nm body :: rest, s =>
      (.handler (.mk typ nm body), s) ::
        ((match typ with
            | some e => scopesExpr e s
            | Option.none => []) ++
          scopesStmtList body (merge_dicts [s, [(nm, .expr (.name nm))]]) ++
          scopesHandlers rest s)

end

/-- Root invocation over a module body: `Scoped.recurse_collect` seeds
the scope with the hoisted bindings of the whole tree. -/
def scopesModule (body : List PStmt) : List (PNode × Scope) :=
  scopesStmtList body (find_assignments body)

/-- The recorded scopes (as name sets) of every `Name` expression with
identifier `id`. -/
def scopesOfName (id : String) (l : List (PNode × Scope)) :
    List (List String) :=
  l.filterMap (fun p =>
    match p with
    | (.expr (.name i), sc) =>
        if i = id then some sc.names else Option.none
    | _ => Option.none)

/-- The recorded scopes (as name sets) of every assignment whose first
target is the name `id`. -/
def scopesOfAssign (id : String) (l : List (PNode × Scope)) :
    List (List String) :=
  l.filterMap (fun p =>
    match p with
    | (.stmt (.assign (PExpr.name i :: _) _), sc) =>
        if i = id then some sc.names else Option.none
    | _ => Option.none)

/-- Literal example for C4: `def f(x=DEFAULT): y = 1`. -/
def demoFunc : List PStmt :=
  [.functionDef "f"
      (.mk ["x"] Option.none Option.none [.name "DEFAULT"])
      [.assign [.name "y"] (.num 1)]]

/-- Literal example for C5: `class C(Base): z = 1`. -/
def demoClass : List PStmt :=
  [.classDef "C" [.name "Base"] [.assign [.name "z"] (.num 1)]]

/-- Literal example for C8: `with foo as x: marker`. -/
def demoWith : List PStmt :=
  [.withStmt [.mk (.name "foo") (some (.name "x"))]
      [.exprStmt (.name "marker")]]

/-- A `Point` class whose `__init__` takes `(self, x)` and which declares
no `__unapply__`. -/
def Point : PyClass := ⟨"Point", ["self", "x"], Option.none⟩

/-- A `Point` instance with `x = 1`. -/
def pointObj : Value := .obj ["Point"] [("x", .int 1)]

/-- A `Point` instance missing its `x` attribute. -/
def missingPoint : Value := .obj ["Point"] []

/-! ### Helper lemmas about the matcher algebra -/

/-- The helper run `varNamesList` is `List.map Matcher.var_names`. -/
theorem varNamesList_eq_map (ms : List Matcher) :
    varNamesList ms = ms.map Matcher.var_names := by
  induction ms with
  | nil => rfl
  | cons m ms ih => simp [varNamesList, ih]

/-- Source `_vars_are_disjoint` answers exactly `Nodup`: the length of a
list equals the size of its set of elements iff it has no duplicates. -/
theorem vars_are_disjoint_iff (l : List String) :
    vars_are_disjoint l = true ↔ l.Nodup := by
  unfold vars_are_disjoint
  rw [beq_iff_eq]
  constructor
  · intro h
    have hs := List.dedup_sublist l
    have he : l.dedup = l := hs.eq_of_length h.symm
    rw [← he]
    exact List.nodup_dedup l
  · intro h
    rw [List.dedup_eq_self.mpr h]

/-- Nodup of the flattened name lists from per-child Nodup plus pairwise
disjointness. -/
theorem nodup_flatten_of_disjoint (ms : List Matcher)
    (h1 : ∀ m ∈ ms, m.var_names.Nodup)
    (h2 : ms.Pairwise (fun a b => a.var_names.Disjoint b.var_names)) :
    (flatten (varNamesList ms)).Nodup := by
  rw [varNamesList_eq_map]
  unfold flatten
  rw [List.nodup_flatten]
  constructor
  · intro l hl
    obtain ⟨m, hm, rfl⟩ := List.mem_map.mp hl
    exact h1 m hm
  · exact List.pairwise_map.mpr h2

/-- Characterization of the positional matching loop: it returns `ok bs`
iff each zipped (matcher, element) pair succeeds and `bs` is the
concatenation of the pairwise binding lists, in order. -/
theorem matchList_ok_iff (ms : List Matcher) (vs : List Value)
    (bs : List (String × Value)) :
    matchList ms vs = .ok bs ↔
      ∃ bss, List.Forall₂
          (fun (p : Matcher × Value) b => p.1.match' p.2 = .ok b)
          (ms.zip vs) bss ∧ bs = bss.flatten := by
  induction ms generalizing vs bs with
  | nil =>
      simp only [matchList, List.zip_nil_left]
      constructor
      · intro h
        injection h with h
        exact ⟨[], List.Forall₂.nil, h.symm⟩
      · rintro ⟨bss, hf, rfl⟩
        cases hf
        rfl
  | cons m ms ih =>
      cases vs with
      | nil =>
          simp only [matchList, List.zip_nil_right]
          constructor
          · intro h
            injection h with h
            exact ⟨[], List.Forall₂.nil, h.symm⟩
          · rintro ⟨bss, hf, rfl⟩
            cases hf
            rfl
      | cons v vs =>
          simp only [matchList, List.zip_cons_cons]
          constructor
          · intro h
            cases hm : m.match' v with
            | error e => rw [hm] at h; simp [Bind.bind, Except.bind] at h
            | ok u =>
                rw [hm] at h
                cases hrest : matchList ms vs with
                | error e =>
                    rw [hrest] at h; simp [Bind.bind, Except.bind] at h
                | ok rest =>
                    rw [hrest] at h
                    simp only [Bind.bind, Except.bind, pure, Except.pure] at h
                    injection h with h
                    obtain ⟨bss, hf, rfl⟩ := (ih vs rest).mp hrest
                    exact ⟨u :: bss, List.Forall₂.cons hm hf, by
                      simp [h.symm]⟩
          · rintro ⟨bss, hf, rfl⟩
            cases hf with
            | cons hp hrest =>
                rename_i u bss'
                rw [hp]
                have : matchList ms vs = .ok bss'.flatten :=
                  (ih vs bss'.flatten).mpr ⟨bss', hrest, rfl⟩
                rw [this]
                simp [Bind.bind, Except.bind, pure, Except.pure]

/-- Failure propagation of the positional loop: an error is the error of
some zipped pair (the first failing sub-matcher). -/
theorem matchList_error (ms : List Matcher) (vs : List Value) (e : MatchErr)
    (h : matchList ms vs = .error e) :
    ∃ p ∈ ms.zip vs, p.1.match' p.2 = .error e := by
  induction ms generalizing vs with
  | nil => simp [matchList] at h
  | cons m ms ih =>
      cases vs with
      | nil => simp [matchList] at h
      | cons v vs =>
          simp only [matchList] at h
          cases hm : m.match' v with
          | error e' =>
              rw [hm] at h
              simp only [Bind.bind, Except.bind] at h
              injection h with h
              exact ⟨(m, v), by simp, by rw [hm, h]⟩
          | ok u =>
              rw [hm] at h
              cases hrest : matchList ms vs with
              | error e' =>
                  rw [hrest] at h
                  simp only [Bind.bind, Except.bind] at h
                  injection h with h
                  subst h
                  obtain ⟨p, hp, hpe⟩ := ih vs hrest
                  exact ⟨p, by simp [hp], hpe⟩
              | ok rest =>
                  rw [hrest] at h
                  simp [Bind.bind, Except.bind, pure, Except.pure] at h

/-- Unfolding of a tuple match: success is exactly a tuple value of the
right arity whose elements all satisfy the positional sub-matchers. -/
theorem tupleMatch_ok_iff (ms : List Matcher) (v : Value)
    (bs : List (String × Value)) :
    Matcher.match' (.tuple ms) v = .ok bs ↔
      ∃ vs bss, v = Value.tuple vs ∧ vs.length = ms.length ∧
        List.Forall₂ (fun (p : Matcher × Value) b => p.1.match' p.2 = .ok b)
          (ms.zip vs) bss ∧ bs = bss.flatten := by
  cases v with
  | tuple vs =>
      simp only [Matcher.match']
      by_cases h : vs.length = ms.length
      · rw [if_pos h, matchList_ok_iff]
        constructor
        · rintro ⟨bss, hf, rfl⟩
          exact ⟨vs, bss, rfl, h, hf, rfl⟩
        · rintro ⟨vs', bss, hv, hlen, hf, rfl⟩
          injection hv with hv
          subst hv
          exact ⟨bss, hf, rfl⟩
      · rw [if_neg h]
        constructor
        · intro hc; exact absurd hc (by simp)
        · rintro ⟨vs', bss, hv, hlen, hf, rfl⟩
          injection hv with hv
          subst hv
          exact absurd hlen h
  | int n => simp [Matcher.match']
  | str s => simp [Matcher.match']
  | bool b => simp [Matcher.match']
  | none => simp [Matcher.match']
  | list l => simp [Matcher.match']
  | obj c a => simp [Matcher.match']

/-- Unfolding of a list match: success is exactly a list value of the
right arity whose elements all satisfy the positional sub-matchers. -/
theorem listMatch_ok_iff (ms : List Matcher) (v : Value)
    (bs : List (String × Value)) :
    Matcher.match' (.list ms) v = .ok bs ↔
      ∃ vs bss, v = Value.list vs ∧ vs.length = ms.length ∧
        List.Forall₂ (fun (p : Matcher × Value) b => p.1.match' p.2 = .ok b)
          (ms.zip vs) bss ∧ bs = bss.flatten := by
  cases v with
  | list vs =>
      simp only [Matcher.match']
      by_cases h : vs.length = ms.length
      · rw [if_pos h, matchList_ok_iff]
        constructor
        · rintro ⟨bss, hf, rfl⟩
          exact ⟨vs, bss, rfl, h, hf, rfl⟩
        · rintro ⟨vs', bss, hv, hlen, hf, rfl⟩
          injection hv with hv
          subst hv
          exact ⟨bss, hf, rfl⟩
      · rw [if_neg h]
        constructor
        · intro hc; exact absurd hc (by simp)
        · rintro ⟨vs', bss, hv, hlen, hf, rfl⟩
          injection hv with hv
          subst hv
          exact absurd hlen h
  | int n => simp [Matcher.match']
  | str s => simp [Matcher.match']
  | bool b => simp [Matcher.match']
  | none => simp [Matcher.match']
  | tuple l => simp [Matcher.match']
  | obj c a => simp [Matcher.match']

/-- The positional loop never looks at surplus trailing matchers: zipping
truncates at the value list. -/
theorem matchList_append_matchers (ms extra : List Matcher)
    (vs : List Value) (h : vs.length ≤ ms.length) :
    matchList (ms ++ extra) vs = matchList ms vs := by
  induction ms generalizing vs with
  | nil =>
      cases vs with
      | nil => cases extra <;> simp [matchList]
      | cons v vs => simp at h
  | cons m ms ih =>
      cases vs with
      | nil => cases extra <;> simp [matchList]
      | cons v vs =>
          simp only [List.cons_append, matchList]
          rw [ih vs (by simpa using h)]

/-- The positional loop never checks surplus trailing values. -/
theorem matchList_append_values (ms : List Matcher) (vs extra : List Value)
    (h : ms.length ≤ vs.length) :
    matchList ms (vs ++ extra) = matchList ms vs := by
  induction ms generalizing vs with
  | nil => cases vs <;> cases extra <;> simp [matchList]
  | cons m ms ih =>
      cases vs with
      | nil => simp at h
      | cons v vs =>
          simp only [List.cons_append, matchList]
          rw [ih vs (by simpa using h)]

/-- A dictionary lookup misses exactly when no key matches. -/
theorem lookup_eq_none_of_any_false {β : Type}
    (attrs : List (String × β)) (k : String)
    (h : attrs.any (fun p => p.1 == k) = false) :
    attrs.lookup k = Option.none := by
  induction attrs with
  | nil => rfl
  | cons p rest ih =>
      obtain ⟨k', v'⟩ := p
      simp only [List.any_cons, Bool.or_eq_false_iff] at h
      rw [List.lookup]
      have hne : (k == k') = false := by
        have h1 := h.1
        simp only [beq_eq_false_iff_ne] at h1 ⊢
        exact fun hc => h1 hc.symm
      rw [hne]
      exact ih h.2

/-- Missing attributes make `getattr` return its default. -/
theorem getattr_of_hasattr_false (v : Value) (k : String) (d : Value)
    (h : hasattr v k = false) : getattr v k d = d := by
  cases v with
  | obj cs attrs =>
      simp only [hasattr] at h
      simp only [getattr, lookup_eq_none_of_any_false attrs k h]
  | int n => rfl
  | str s => rfl
  | bool b => rfl
  | none => rfl
  | tuple l => rfl
  | list l => rfl

/-- The keyword half of `default_unapply` raises `PatternMatchException`
as soon as some requested keyword attribute is missing. -/
theorem buildKwDict_error (m : Value) (keys : List String)
    (h : ∃ k ∈ keys, hasattr m k = false) :
    ∃ msg, buildKwDict m keys = .error (.pm msg) := by
  induction keys with
  | nil => simp at h
  | cons k rest ih =>
      by_cases hk : hasattr m k = true
      · obtain ⟨k', hk', hfalse⟩ := h
        have hmem : k' ∈ rest := by
          rcases List.mem_cons.mp hk' with rfl | hmem
          · rw [hk] at hfalse; exact absurd hfalse (by simp)
          · exact hmem
        obtain ⟨msg, herr⟩ := ih ⟨k', hmem, hfalse⟩
        refine ⟨msg, ?_⟩
        rw [buildKwDict, if_pos hk]
        simp [herr, Bind.bind, Except.bind]
      · refine ⟨"Keyword argument match failed: no attribute " ++ k, ?_⟩
        rw [buildKwDict, if_neg hk]

/-- Inversion of a successful `default_unapply`: the matchee is an
instance, the keyword dictionary was built successfully, and the
positional values are the reflective `getattr` run. -/
theorem default_unapply_ok (c : PyClass) (m : Value) (ks : List String)
    (vals : List Value) (kwd : List (String × Value))
    (h : default_unapply c m ks = .ok (vals, kwd)) :
    isinstance m c = true ∧ buildKwDict m ks = .ok kwd ∧
      vals = posValues c m := by
  unfold default_unapply at h
  by_cases hi : isinstance m c = true
  · rw [if_pos hi] at h
    cases hb : buildKwDict m ks with
    | error e => rw [hb] at h; simp [Bind.bind, Except.bind] at h
    | ok d =>
        rw [hb] at h
        simp only [Bind.bind, Except.bind, pure, Except.pure] at h
        injection h with h
        injection h with h1 h2
        refine ⟨hi, ?_, h1.symm⟩
        rw [h2]
  · rw [if_neg hi] at h
    exact absurd h (by simp)

/-! ### Helper lemmas about scopes -/

/-- Name visibility distributes over scope concatenation. -/
theorem hasName_append (s t : Scope) (x : String) :
    Scope.hasName (s ++ t) x = (Scope.hasName s x || Scope.hasName t x) := by
  simp [Scope.hasName, List.any_append]

/-- Name visibility at the front of a scope list. -/
theorem hasName_cons (p : String × PBind) (rest : Scope) (x : String) :
    Scope.hasName (p :: rest) x = ((p.1 == x) || Scope.hasName rest x) := by
  simp [Scope.hasName]

/-- Name visibility in a merged scope is the disjunction of visibility in
the parts. -/
theorem hasName_merge (ds : List Scope) (x : String) :
    Scope.hasName (merge_dicts ds) x = ds.any (fun d => Scope.hasName d x) := by
  induction ds with
  | nil => rfl
  | cons d ds ih =>
      have hflat : merge_dicts (d :: ds) = d ++ merge_dicts ds := rfl
      rw [hflat, hasName_append, ih, List.any_cons]

/-- Removing a key hides it. -/
theorem hasName_remove_self (s : Scope) (k : String) :
    Scope.hasName (Scope.remove s k) k = false := by
  rw [Bool.eq_false_iff]
  intro h
  obtain ⟨p, hp, hpk⟩ := List.any_eq_true.mp h
  have hmem := List.mem_filter.mp hp
  have : p.1 = k := by simpa using hpk
  have hne : p.1 ≠ k := by simpa using hmem.2
  exact hne this

/-- Removing a non-matching head keeps it. -/
theorem remove_cons_of_ne (p : String × PBind) (rest : Scope) (k : String)
    (hp : p.1 ≠ k) :
    Scope.remove (p :: rest) k = p :: Scope.remove rest k := by
  simp [Scope.remove, List.filter_cons, hp]

/-- Removing a matching head drops it. -/
theorem remove_cons_of_eq (p : String × PBind) (rest : Scope) (k : String)
    (hp : p.1 = k) : Scope.remove (p :: rest) k = Scope.remove rest k := by
  simp [Scope.remove, List.filter_cons, hp]

/-- Removing one key does not affect the visibility of another. -/
theorem hasName_remove_ne (s : Scope) (k x : String) (h : x ≠ k) :
    Scope.hasName (Scope.remove s k) x = Scope.hasName s x := by
  induction s with
  | nil => rfl
  | cons p rest ih =>
      by_cases hp : p.1 = k
      · have hpx : (p.1 == x) = false := by
          rw [beq_eq_false_iff_ne, hp]
          exact fun hc => h hc.symm
        rw [remove_cons_of_eq p rest k hp, ih, hasName_cons, hpx,
          Bool.false_or]
      · rw [remove_cons_of_ne p rest k hp, hasName_cons, ih, hasName_cons]

/-- A name bound by a parameter dictionary built with `map` is visible. -/
theorem hasName_map_self (args : List String) (f : String → PBind)
    (x : String) (h : x ∈ args) :
    Scope.hasName (args.map (fun n => (n, f n))) x = true := by
  rw [Scope.hasName, List.any_eq_true]
  exact ⟨(x, f x), List.mem_map.mpr ⟨x, h, rfl⟩, by simp⟩

/-- Splitting the comprehension-clause traversal: the clauses after a
prefix are traversed with the iteration variables accumulated from the
prefix's targets. -/
theorem scopesComps_append (pre post : List PComp) (s acc : Scope) :
    scopesComps (pre ++ post) s acc =
      scopesComps pre s acc ++ scopesComps post s (acc ++ compVars pre) := by
  induction pre generalizing acc with
  | nil => simp [scopesComps, compVars]
  | cons c pre ih =>
      obtain ⟨t, it, ifs⟩ := c
      simp only [List.cons_append, scopesComps, compVars, List.append_eq,
        ih, List.append_assoc]

/-! ### Claim theorems: matcher algebra -/

/-- C1: building any composite matcher (tuple, list, parallel, class)
eagerly validates at construction time that the flattened variable names
of its children have no duplicate, raising `PatternVarConflict`
otherwise; in particular a tuple matcher over two name matchers both
named `x` is rejected, while children with individually duplicate-free,
pairwise disjoint name sets construct successfully. -/
theorem construction_conflict_detection :
    (∀ ms : List Matcher, ¬ (flatten (varNamesList ms)).Nodup →
        TupleMatcher.make ms = .error ())
  ∧ (∀ ms : List Matcher, ¬ (flatten (varNamesList ms)).Nodup →
        ListMatcher.make ms = .error ())
  ∧ (∀ m1 m2 : Matcher, ¬ (flatten [m1.var_names, m2.var_names]).Nodup →
        ParallelMatcher.make m1 m2 = .error ())
  ∧ (∀ (c : PyClass) (pos : List Matcher) (kw : List (String × Matcher)),
        ¬ (flatten (varNamesList (pos ++ kw.map Prod.snd))).Nodup →
        ClassMatcher.make c pos kw = .error ())
  ∧ TupleMatcher.make [.name "x", .name "x"] = .error ()
  ∧ (∀ ms : List Matcher, (∀ m ∈ ms, m.var_names.Nodup) →
        ms.Pairwise (fun a b => a.var_names.Disjoint b.var_names) →
        TupleMatcher.make ms = .ok (.tuple ms))
  ∧ (∀ ms : List Matcher, (∀ m ∈ ms, m.var_names.Nodup) →
        ms.Pairwise (fun a b => a.var_names.Disjoint b.var_names) →
        ListMatcher.make ms = .ok (.list ms))
  ∧ (∀ m1 m2 : Matcher, m1.var_names.Nodup → m2.var_names.Nodup →
        m1.var_names.Disjoint m2.var_names →
        ParallelMatcher.make m1 m2 = .ok (.parallel m1 m2))
  ∧ (∀ (c : PyClass) (pos : List Matcher) (kw : List (String × Matcher)),
        (∀ m ∈ pos ++ kw.map Prod.snd, m.var_names.Nodup) →
        (pos ++ kw.map Prod.snd).Pairwise
          (fun a b => a.var_names.Disjoint b.var_names) →
        ClassMatcher.make c pos kw = .ok (.cls c pos kw)) := by
  refine ⟨?_, ?_, ?_, ?_, ?_, ?_, ?_, ?_, ?_⟩
  · intro ms h
    simp only [TupleMatcher.make]
    rw [if_neg (fun hc => h ((vars_are_disjoint_iff _).mp hc))]
  · intro ms h
    simp only [ListMatcher.make]
    rw [if_neg (fun hc => h ((vars_are_disjoint_iff _).mp hc))]
  · intro m1 m2 h
    simp only [ParallelMatcher.make]
    rw [if_neg (fun hc => h ((vars_are_disjoint_iff _).mp hc))]
  · intro c pos kw h
    simp only [ClassMatcher.make]
    rw [if_neg (fun hc => h ((vars_are_disjoint_iff _).mp hc))]
  · rfl
  · intro ms h1 h2
    simp only [TupleMatcher.make]
    rw [if_pos ((vars_are_disjoint_iff _).mpr
      (nodup_flatten_of_disjoint ms h1 h2))]
  · intro ms h1 h2
    simp only [ListMatcher.make]
    rw [if_pos ((vars_are_disjoint_iff _).mpr
      (nodup_flatten_of_disjoint ms h1 h2))]
  · intro m1 m2 h1 h2 hd
    simp only [ParallelMatcher.make]
    rw [if_pos ((vars_are_disjoint_iff _).mpr (by
      have : flatten [m1.var_names, m2.var_names] =
          m1.var_names ++ m2.var_names := by simp [flatten]
      rw [this]
      exact h1.append h2 hd))]
  · intro c pos kw h1 h2
    simp only [ClassMatcher.make]
    rw [if_pos ((vars_are_disjoint_iff _).mpr
      (nodup_flatten_of_disjoint _ h1 h2))]

/-- Witness for C1 at concrete inputs: the conflicting pair is rejected
and disjoint pairs are accepted. -/
theorem construction_conflict_detection_witness :
    TupleMatcher.make [.name "x", .name "x"] = .error ()
  ∧ ListMatcher.make [.name "x", .name "y"] = .ok (.list [.name "x", .name "y"])
  ∧ ParallelMatcher.make (.name "a") (.name "b") =
      .ok (.parallel (.name "a") (.name "b")) := by
  refine ⟨construction_conflict_detection.2.2.2.2.1, ?_, ?_⟩
  · refine construction_conflict_detection.2.2.2.2.2.2.1
      [.name "x", .name "y"] ?_ ?_
    · intro m hm
      have hm' : m = Matcher.name "x" ∨ m = Matcher.name "y" := by
        simpa using hm
      rcases hm' with rfl | rfl <;> simp [Matcher.var_names]
    · refine List.Pairwise.cons (fun b hb => ?_)
        (List.Pairwise.cons (fun b hb => absurd hb (List.not_mem_nil b))
          List.Pairwise.nil)
      have hb' : b = Matcher.name "y" := by simpa using hb
      subst hb'
      intro a ha ha'
      simp [Matcher.var_names] at ha ha'
      subst ha
      simp at ha'
  · refine construction_conflict_detection.2.2.2.2.2.2.2.1
      (.name "a") (.name "b") (by simp [Matcher.var_names])
      (by simp [Matcher.var_names]) ?_
    intro a ha hb
    simp [Matcher.var_names] at ha hb
    subst ha
    simp at hb

/-- C2: a tuple (resp. list) matcher succeeds exactly on a tuple (resp.
list) value of its own arity with every positional sub-matcher
succeeding on the corresponding element, returning the left-to-right
concatenation of the sub-bindings; a wrong shape or arity raises
`PatternMatchException`, and a failure on a well-shaped value is the
propagated failure of some positional pair; with the literal examples
from the spec. -/
theorem tuple_list_match_semantics :
    (∀ (ms : List Matcher) (v : Value) (bs : List (String × Value)),
        Matcher.match' (.tuple ms) v = .ok bs ↔
          ∃ vs bss, v = Value.tuple vs ∧ vs.length = ms.length ∧
            List.Forall₂
              (fun (p : Matcher × Value) b => p.1.match' p.2 = .ok b)
              (ms.zip vs) bss ∧ bs = bss.flatten)
  ∧ (∀ (ms : List Matcher) (v : Value) (bs : List (String × Value)),
        Matcher.match' (.list ms) v = .ok bs ↔
          ∃ vs bss, v = Value.list vs ∧ vs.length = ms.length ∧
            List.Forall₂
              (fun (p : Matcher × Value) b => p.1.match' p.2 = .ok b)
              (ms.zip vs) bss ∧ bs = bss.flatten)
  ∧ (∀ (ms : List Matcher) (v : Value),
        (¬ ∃ vs, v = Value.tuple vs ∧ vs.length = ms.length) →
        ∃ msg, Matcher.match' (.tuple ms) v = .error (.pm msg))
  ∧ (∀ (ms : List Matcher) (v : Value),
        (¬ ∃ vs, v = Value.list vs ∧ vs.length = ms.length) →
        ∃ msg, Matcher.match' (.list ms) v = .error (.pm msg))
  ∧ (∀ (ms : List Matcher) (vs : List Value) (e : MatchErr),
        vs.length = ms.length →
        Matcher.match' (.tuple ms) (.tuple vs) = .error e →
        ∃ p ∈ ms.zip vs, p.1.match' p.2 = .error e)
  ∧ (∀ (ms : List Matcher) (vs : List Value) (e : MatchErr),
        vs.length = ms.length →
        Matcher.match' (.list ms) (.list vs) = .error e →
        ∃ p ∈ ms.zip vs, p.1.match' p.2 = .error e)
  ∧ Matcher.match' (.tuple [.name "a", .literal (.int 5)])
      (.tuple [.int 10, .int 5]) = .ok [("a", .int 10)]
  ∧ Matcher.match' (.tuple [.name "a", .literal (.int 5)])
      (.tuple [.int 10, .int 6]) = .error (.pm "Literal match failed")
  ∧ Matcher.match' (.tuple [.name "a", .literal (.int 5)])
      (.tuple [.int 1, .int 2, .int 3]) =
        .error (.pm "Expected tuple of 2 elements") := by
  refine ⟨tupleMatch_ok_iff, listMatch_ok_iff, ?_, ?_, ?_, ?_, ?_, ?_, ?_⟩
  · intro ms v h
    refine ⟨"Expected tuple of " ++ toString ms.length ++ " elements", ?_⟩
    cases v with
    | tuple vs =>
        have hlen : ¬ vs.length = ms.length := fun hc => h ⟨vs, rfl, hc⟩
        simp [Matcher.match', if_neg hlen]
    | int n => simp [Matcher.match']
    | str s => simp [Matcher.match']
    | bool b => simp [Matcher.match']
    | none => simp [Matcher.match']
    | list l => simp [Matcher.match']
    | obj c a => simp [Matcher.match']
  · intro ms v h
    refine ⟨"Expected list of length " ++ toString ms.length, ?_⟩
    cases v with
    | list vs =>
        have hlen : ¬ vs.length = ms.length := fun hc => h ⟨vs, rfl, hc⟩
        simp [Matcher.match', if_neg hlen]
    | int n => simp [Matcher.match']
    | str s => simp [Matcher.match']
    | bool b => simp [Matcher.match']
    | none => simp [Matcher.match']
    | tuple l => simp [Matcher.match']
    | obj c a => simp [Matcher.match']
  · intro ms vs e hlen h
    rw [Matcher.match'] at h
    rw [if_pos hlen] at h
    exact matchList_error ms vs e h
  · intro ms vs e hlen h
    rw [Matcher.match'] at h
    rw [if_pos hlen] at h
    exact matchList_error ms vs e h
  · simp [Matcher.match', matchList, Value.beq, Bind.bind, Except.bind,
      pure, Except.pure]
  · simp [Matcher.match', matchList, Value.beq, Bind.bind, Except.bind,
      pure, Except.pure]
  · simp [Matcher.match']
    rfl

/-- Witness for C2 at concrete inputs: the spec's round-trip example,
through the general characterization. -/
theorem tuple_list_match_semantics_witness :
    Matcher.match' (.tuple [.name "a", .literal (.int 5)])
      (.tuple [.int 10, .int 5]) = .ok [("a", .int 10)]
  ∧ (∃ msg, Matcher.match' (.tuple [.name "a", .literal (.int 5)])
      (.tuple [.int 1, .int 2, .int 3]) = .error (.pm msg)) := by
  constructor
  · exact (tuple_list_match_semantics.1 [.name "a", .literal (.int 5)]
      (.tuple [.int 10, .int 5]) [("a", .int 10)]).mpr
      ⟨[.int 10, .int 5], [[("a", .int 10)], []], rfl, rfl,
        by
          refine List.Forall₂.cons ?_ (List.Forall₂.cons ?_ .nil)
          · simp [Matcher.match']
          · simp [Matcher.match', Value.beq],
        rfl⟩
  · exact tuple_list_match_semantics.2.2.1 [.name "a", .literal (.int 5)]
      (.tuple [.int 1, .int 2, .int 3]) (by
        rintro ⟨vs, hv, hlen⟩
        injection hv with hv
        subst hv
        simp at hlen)

/-- C9: the wildcard matcher succeeds on every value with the single
binding of `_` to the fixed placeholder `3`, independent of the matchee
(in particular it does not bind the matched value itself). -/
theorem wildcard_fixed_placeholder :
    (∀ v : Value, Matcher.match' .wildcard v = .ok [("_", Value.int 3)])
  ∧ (∀ v1 v2 : Value,
        Matcher.match' .wildcard v1 = Matcher.match' .wildcard v2)
  ∧ Matcher.match' .wildcard (Value.int 0) ≠
      .ok [("_", Value.int 0)] := by
  refine ⟨fun v => by simp [Matcher.match'], fun v1 v2 => by
    simp [Matcher.match'], ?_⟩
  simp [Matcher.match']

/-- C7 counterexample: a `Point` instance with its positional field `x`
missing is matched by `ClassMatcher(Point, [NameMatcher("px")])` with the
substitute binding `("px", None)` instead of raising
`PatternMatchException`: `getattr(matchee, arg, None)` silently supplies
`None` for missing positional fields. -/
theorem classmatcher_missing_positional_silent :
    hasattr missingPoint "x" = false ∧
    Matcher.match' (.cls Point [.name "px"] []) missingPoint =
      .ok [("px", Value.none)] := by
  constructor
  · rfl
  · rw [Matcher.match']
    simp [Point, default_unapply, isinstance, missingPoint, buildKwDict,
      posValues, getattr, matchList, matchKw, Matcher.match', Bind.bind,
      Except.bind, pure, Except.pure]

/-- C7 (amended): on the default destructuring path, a missing
keyword-matcher attribute raises `PatternMatchException`, but a missing
positional field is destructured as `None` (the `getattr` default) and
handed to the positional sub-matcher, which may silently succeed. -/
theorem classmatcher_missing_attribute_amended :
    (∀ (c : PyClass) (pos : List Matcher) (kw : List (String × Matcher))
        (m : Value), c.unapply = Option.none → isinstance m c = true →
        (∃ k ∈ kw.map Prod.fst, hasattr m k = false) →
        ∃ msg, Matcher.match' (.cls c pos kw) m = .error (.pm msg))
  ∧ (∀ (c : PyClass) (m : Value) (nm a : String) (rest : List String),
        c.unapply = Option.none → isinstance m c = true →
        c.initArgs.filter (fun x => x ≠ "self") = a :: rest →
        hasattr m a = false →
        Matcher.match' (.cls c [.name nm] []) m =
          .ok [(nm, Value.none)]) := by
  constructor
  · intro c pos kw m hu hi hmiss
    obtain ⟨msg, herr⟩ := buildKwDict_error m (kw.map Prod.fst) hmiss
    refine ⟨msg, ?_⟩
    rw [Matcher.match', hu]
    simp [default_unapply, hi, herr, Bind.bind, Except.bind]
  · intro c m nm a rest hu hi hf hmiss
    rw [Matcher.match', hu]
    have hpos : posValues c m =
        Value.none :: rest.map (fun x => getattr m x Value.none) := by
      unfold posValues
      rw [hf]
      simp [getattr_of_hasattr_false m a Value.none hmiss]
    simp [default_unapply, hi, buildKwDict, hpos, matchList, matchKw,
      Matcher.match', Bind.bind, Except.bind, pure, Except.pure]

/-- Witness for the amended C7 at concrete inputs: a missing keyword
attribute raises, a missing positional field silently binds `None`. -/
theorem classmatcher_missing_attribute_amended_witness :
    (∃ msg, Matcher.match'
        (.cls Point [] [("x", .name "kx")]) missingPoint =
          .error (.pm msg))
  ∧ Matcher.match' (.cls Point [.name "px"] []) missingPoint =
      .ok [("px", Value.none)] := by
  constructor
  · exact classmatcher_missing_attribute_amended.1 Point []
      [("x", .name "kx")] missingPoint rfl rfl
      ⟨"x", by simp, rfl⟩
  · exact classmatcher_missing_attribute_amended.2 Point missingPoint
      "px" "x" [] rfl rfl rfl rfl

/-- C10: `ClassMatcher.match` never checks the arity of its positional
sub-matchers against the destructured values: the pairing truncates to
the shorter side (surplus sub-matchers are never consulted, surplus
destructured values are never checked), no `PatternMatchException` arises
from the count mismatch, and — by contrast — tuple and list matchers
raise on any length mismatch. -/
theorem classmatcher_no_arity_check :
    (∀ (c : PyClass) (pos extra : List Matcher)
        (kw : List (String × Matcher)) (m : Value),
        c.unapply = Option.none →
        (posValues c m).length ≤ pos.length →
        Matcher.match' (.cls c (pos ++ extra) kw) m =
          Matcher.match' (.cls c pos kw) m)
  ∧ (∀ (c : PyClass) (extraArgs : List String) (pos : List Matcher)
        (kw : List (String × Matcher)) (m : Value),
        c.unapply = Option.none →
        pos.length ≤ (posValues c m).length →
        Matcher.match'
          (.cls ⟨c.name, c.initArgs ++ extraArgs, c.unapply⟩ pos kw) m =
          Matcher.match' (.cls c pos kw) m)
  ∧ (∀ (c : PyClass) (pos : List Matcher) (m : Value)
        (bs : List (String × Value)),
        c.unapply = Option.none → isinstance m c = true →
        pos.length ≠ (posValues c m).length →
        matchList pos (posValues c m) = .ok bs →
        Matcher.match' (.cls c pos []) m = .ok bs)
  ∧ (∀ (ms : List Matcher) (vs : List Value), vs.length ≠ ms.length →
        (∃ msg, Matcher.match' (.tuple ms) (.tuple vs) =
          .error (.pm msg)) ∧
        (∃ msg, Matcher.match' (.list ms) (.list vs) =
          .error (.pm msg)))
  ∧ Matcher.match' (.cls Point [.name "a", .literal (.int 5)] []) pointObj
      = .ok [("a", .int 1)]
  ∧ Matcher.match' (.cls Point [] []) pointObj = .ok [] := by
  refine ⟨?_, ?_, ?_, ?_, ?_, ?_⟩
  · intro c pos extra kw m hu hlen
    rw [Matcher.match', Matcher.match', hu]
    cases hdef : default_unapply c m (kw.map Prod.fst) with
    | error e => simp [Bind.bind, Except.bind]
    | ok pr =>
        obtain ⟨vals, kwd⟩ := pr
        obtain ⟨hi, hb, hvals⟩ := default_unapply_ok c m _ vals kwd hdef
        simp only [Bind.bind, Except.bind]
        rw [matchList_append_matchers pos extra vals (hvals ▸ hlen)]
  · intro c extraArgs pos kw m hu hlen
    have hvals : posValues ⟨c.name, c.initArgs ++ extraArgs, Option.none⟩ m
        = posValues c m ++
          (extraArgs.filter (fun a => a ≠ "self")).map
            (fun a => getattr m a Value.none) := by
      simp [posValues, List.filter_append]
    rw [Matcher.match', Matcher.match', hu]
    simp only [default_unapply]
    have hinst :
        isinstance m ⟨c.name, c.initArgs ++ extraArgs, Option.none⟩
        = isinstance m c := by
      cases m <;> simp [isinstance]
    rw [hinst, hvals]
    by_cases hi : isinstance m c = true
    · rw [if_pos hi, if_pos hi]
      cases hb : buildKwDict m (kw.map Prod.fst) with
      | error e => simp [Bind.bind, Except.bind]
      | ok d =>
          simp only [Bind.bind, Except.bind, pure, Except.pure]
          rw [matchList_append_values pos (posValues c m) _ hlen]
    · rw [if_neg hi, if_neg hi]
  · intro c pos m bs hu hi hne hok
    rw [Matcher.match', hu]
    simp [default_unapply, hi, buildKwDict, hok, matchKw, Bind.bind,
      Except.bind, pure, Except.pure]
  · intro ms vs h
    constructor
    · exact ⟨_, by rw [Matcher.match', if_neg h]⟩
    · exact ⟨_, by rw [Matcher.match', if_neg h]⟩
  · rw [Matcher.match']
    simp [Point, pointObj, default_unapply, isinstance, buildKwDict,
      posValues, getattr, matchList, matchKw, Matcher.match', Value.beq,
      Bind.bind, Except.bind, pure, Except.pure]
  · rw [Matcher.match']
    simp [Point, pointObj, default_unapply, isinstance, buildKwDict,
      posValues, getattr, matchList, matchKw, Bind.bind,
      Except.bind, pure, Except.pure]

/-- Witness for C10 at concrete inputs: appending a surplus sub-matcher
(which would reject everything) does not change the match, and a matcher
list shorter than the destructured values also matches. -/
theorem classmatcher_no_arity_check_witness :
    Matcher.match'
        (.cls Point ([.name "a"] ++ [.literal (.int 5)]) []) pointObj =
      Matcher.match' (.cls Point [.name "a"] []) pointObj
  ∧ Matcher.match' (.cls Point [] []) pointObj = .ok [] := by
  constructor
  · exact classmatcher_no_arity_check.1 Point [.name "a"]
      [.literal (.int 5)] [] pointObj rfl (by simp [posValues, Point])
  · exact classmatcher_no_arity_check.2.2.2.2.2

/-! ### Claim theorems: Scope Tracker -/

/-- C3: for every node kind that extends the scope of a specific child
(lambda body, comprehension parts, function args/body, class bases/body,
except-handler body, for body, with body), the extension is a fresh
merged mapping given to that child only, while the node itself and every
sibling subtree are traversed with the original mapping; hence a fresh
binding introduced for one child is visible there and not in a sibling
subtree's root scope. -/
theorem scope_extension_isolation :
    (∀ (a : PArgs) (body : PExpr) (s : Scope),
        scopesExpr (.lam a body) s =
          (.expr (.lam a body), s) ::
            (scopesArgs a s ++
              scopesExpr body (merge_dicts [s, extract_arg_names a])))
  ∧ (∀ (nm : String) (a : PArgs) (body : List PStmt) (s : Scope),
        scopesStmt (.functionDef nm a body) s =
          (.stmt (.functionDef nm a body), s) ::
            (scopesArgs a
                (merge_dicts [s, [(nm, .stmt (.functionDef nm a body))]]) ++
              scopesStmtList body
                (merge_dicts [s, [(nm, .stmt (.functionDef nm a body))],
                  extract_arg_names a, find_assignments body])))
  ∧ (∀ (nm : String) (bases : List PExpr) (body : List PStmt) (s : Scope),
        scopesStmt (.classDef nm bases body) s =
          (.stmt (.classDef nm bases body), s) ::
            (scopesExprList bases (Scope.remove (merge_dicts [s]) nm) ++
              scopesStmtList body
                (Scope.remove (merge_dicts [s, find_assignments body]) nm)))
  ∧ (∀ (typ : Option PExpr) (nm : String) (body : List PStmt)
        (rest : List PHandler) (s : Scope),
        scopesHandlers (.mk typ nm body :: rest) s =
          (.handler (.mk typ nm body), s) ::
            ((match typ with
                | some e => scopesExpr e s
                | Option.none => []) ++
              scopesStmtList body
                (merge_dicts [s, [(nm, .expr (.name nm))]]) ++
              scopesHandlers rest s))
  ∧ (∀ (t it : PExpr) (body : List PStmt) (s : Scope),
        scopesStmt (.forStmt t it body) s =
          (.stmt (.forStmt t it body), s) ::
            (scopesExpr t s ++ scopesExpr it s ++
              scopesStmtList body (merge_dicts [s, find_names t])))
  ∧ (∀ (items : List PWithItem) (body : List PStmt) (s : Scope),
        scopesStmt (.withStmt items body) s =
          (.stmt (.withStmt items body), s) ::
            (scopesItems items s ++
              scopesStmtList body
                (merge_dicts [s, find_names_items items])))
  ∧ (∀ (pre post : List PComp) (s acc : Scope),
        scopesComps (pre ++ post) s acc =
          scopesComps pre s acc ++
            scopesComps post s (acc ++ compVars pre))
  ∧ (∀ (s ext : Scope) (x : String), Scope.hasName s x = false →
        Scope.hasName ext x = true →
        Scope.hasName (merge_dicts [s, ext]) x = true ∧
          Scope.hasName s x = false) := by
  refine ⟨fun a body s => rfl, fun nm a body s => rfl,
    fun nm bases body s => rfl, fun typ nm body rest s => rfl,
    fun t it body s => rfl, fun items body s => rfl,
    scopesComps_append, ?_⟩
  intro s ext x hs hext
  refine ⟨?_, hs⟩
  rw [hasName_merge]
  simp [hs, hext]

/-- Witness for C3 at a concrete input: a fresh name placed in an
extension is visible in the merged mapping and stays invisible in the
sibling's original mapping. -/
theorem scope_extension_isolation_witness :
    Scope.hasName
        (merge_dicts [[], [("v", PBind.argname "v")]]) "v" = true ∧
      Scope.hasName ([] : Scope) "v" = false :=
  scope_extension_isolation.2.2.2.2.2.2.2 [] [("v", PBind.argname "v")]
    "v" rfl rfl

/-- C4: a function definition gives its parameter defaults a scope
extended only with the function's own name (so fresh parameter names are
absent there), and gives its body a scope extended with the function's
name, the parameter names and the bindings hoisted from the body;
concretely for `def f(x=DEFAULT): y = 1` the scope at `DEFAULT` is
exactly `{f}` and the scope at `y = 1` is `{f, x, y}`. -/
theorem functiondef_scope :
    (∀ (nm : String) (a : PArgs) (body : List PStmt) (s : Scope),
        scopesStmt (.functionDef nm a body) s =
          (.stmt (.functionDef nm a body), s) ::
            (scopesArgs a
                (merge_dicts [s, [(nm, .stmt (.functionDef nm a body))]]) ++
              scopesStmtList body
                (merge_dicts [s, [(nm, .stmt (.functionDef nm a body))],
                  extract_arg_names a, find_assignments body])))
  ∧ (∀ (nm : String) (fnode : PBind) (s : Scope),
        Scope.hasName (merge_dicts [s, [(nm, fnode)]]) nm = true)
  ∧ (∀ (nm : String) (fnode : PBind) (s : Scope) (x : String),
        Scope.hasName s x = false → x ≠ nm →
        Scope.hasName (merge_dicts [s, [(nm, fnode)]]) x = false)
  ∧ (∀ (nm : String) (a : PArgs) (body : List PStmt) (s : Scope)
        (x : String),
        (x = nm ∨ Scope.hasName (extract_arg_names a) x = true ∨
          Scope.hasName (find_assignments body) x = true) →
        Scope.hasName
          (merge_dicts [s, [(nm, .stmt (.functionDef nm a body))],
            extract_arg_names a, find_assignments body]) x = true)
  ∧ scopesOfName "DEFAULT" (scopesModule demoFunc) = [["f"]]
  ∧ scopesOfAssign "y" (scopesModule demoFunc) = [["f", "x", "y"]] := by
  refine ⟨fun nm a body s => rfl, ?_, ?_, ?_, rfl, rfl⟩
  · intro nm fnode s
    rw [hasName_merge]
    simp [Scope.hasName]
  · intro nm fnode s x hs hx
    rw [hasName_merge]
    simp only [List.any_cons, List.any_nil, hs, Bool.false_or,
      Bool.or_false]
    rw [hasName_cons]
    simp only [Scope.hasName, List.any_nil, Bool.or_false]
    rw [beq_eq_false_iff_ne]
    exact fun hc => hx hc.symm
  · intro nm a body s x hx
    rw [hasName_merge]
    rcases hx with rfl | hx | hx
    · simp [Scope.hasName]
    · simp [hx]
    · simp [hx]

/-- Witness for C4 at concrete inputs: the literal example plus a fresh
parameter name invisible over the defaults. -/
theorem functiondef_scope_witness :
    scopesOfName "DEFAULT" (scopesModule demoFunc) = [["f"]] ∧
    Scope.hasName
      (merge_dicts [[], [("f", PBind.argname "f")]]) "x" = false := by
  refine ⟨functiondef_scope.2.2.2.2.1, ?_⟩
  exact functiondef_scope.2.2.1 "f" (PBind.argname "f") [] "x" rfl
    (by decide)

/-- C5: a class definition removes its own name from the scope of its
base-class expressions, and gives its body a scope that excludes the
class's own name but includes the bindings hoisted from the class body;
concretely for `class C(Base): z = 1` the scope at `Base` is empty and
the scope at `z = 1` is exactly `{z}`. -/
theorem classdef_scope :
    (∀ (nm : String) (bases : List PExpr) (body : List PStmt) (s : Scope),
        scopesStmt (.classDef nm bases body) s =
          (.stmt (.classDef nm bases body), s) ::
            (scopesExprList bases (Scope.remove (merge_dicts [s]) nm) ++
              scopesStmtList body
                (Scope.remove (merge_dicts [s, find_assignments body]) nm)))
  ∧ (∀ (s : Scope) (nm : String),
        Scope.hasName (Scope.remove (merge_dicts [s]) nm) nm = false)
  ∧ (∀ (s : Scope) (nm : String) (body : List PStmt),
        Scope.hasName
          (Scope.remove (merge_dicts [s, find_assignments body]) nm) nm =
          false)
  ∧ (∀ (s : Scope) (nm : String) (body : List PStmt) (x : String),
        x ≠ nm → Scope.hasName (find_assignments body) x = true →
        Scope.hasName
          (Scope.remove (merge_dicts [s, find_assignments body]) nm) x =
          true)
  ∧ scopesOfName "Base" (scopesModule demoClass) = [[]]
  ∧ scopesOfAssign "z" (scopesModule demoClass) = [["z"]] := by
  refine ⟨fun nm bases body s => rfl, ?_, ?_, ?_, rfl, rfl⟩
  · intro s nm
    exact hasName_remove_self _ nm
  · intro s nm body
    exact hasName_remove_self _ nm
  · intro s nm body x hx hz
    rw [hasName_remove_ne _ nm x hx, hasName_merge]
    simp [hz]

/-- Witness for C5 at concrete inputs: the literal example plus a hoisted
body binding visible after the class name is removed. -/
theorem classdef_scope_witness :
    scopesOfName "Base" (scopesModule demoClass) = [[]] ∧
    Scope.hasName
      (Scope.remove
        (merge_dicts [[], find_assignments [PStmt.assign [.name "z"]
          (.num 1)]]) "C") "z" = true := by
  refine ⟨classdef_scope.2.2.2.2.1, ?_⟩
  exact classdef_scope.2.2.2.1 [] "C" [PStmt.assign [.name "z"] (.num 1)]
    "z" (by decide) rfl

/-- C6: every comprehension threads its iteration variables in
left-to-right clause order: a clause's target and iterable see the merged
scope holding exactly the targets of strictly earlier clauses, the
clause's `ifs` additionally see its own target, and the result expression
(`elt`, or key and value of a dict comprehension) sees the targets of all
clauses. -/
theorem comprehension_scope_threading :
    (∀ (elt : PExpr) (gens : List PComp) (s : Scope),
        scopesExpr (.listComp elt gens) s =
          (.expr (.listComp elt gens), s) ::
            (scopesExpr elt (merge_dicts [s, compVars gens]) ++
              scopesComps gens s []))
  ∧ (∀ (elt : PExpr) (gens : List PComp) (s : Scope),
        scopesExpr (.setComp elt gens) s =
          (.expr (.setComp elt gens), s) ::
            (scopesExpr elt (merge_dicts [s, compVars gens]) ++
              scopesComps gens s []))
  ∧ (∀ (elt : PExpr) (gens : List PComp) (s : Scope),
        scopesExpr (.genExp elt gens) s =
          (.expr (.genExp elt gens), s) ::
            (scopesExpr elt (merge_dicts [s, compVars gens]) ++
              scopesComps gens s []))
  ∧ (∀ (k v : PExpr) (gens : List PComp) (s : Scope),
        scopesExpr (.dictComp k v gens) s =
          (.expr (.dictComp k v gens), s) ::
            (scopesExpr k (merge_dicts [s, compVars gens]) ++
              scopesExpr v (merge_dicts [s, compVars gens]) ++
              scopesComps gens s []))
  ∧ (∀ (pre : List PComp) (t it : PExpr) (ifs : List PExpr)
        (post : List PComp) (s : Scope),
        scopesComps (pre ++ PComp.mk t it ifs :: post) s [] =
          scopesComps pre s [] ++
            ((.comp (.mk t it ifs), s) ::
              (scopesExpr t (merge_dicts [s, compVars pre]) ++
                scopesExpr it (merge_dicts [s, compVars pre]) ++
                scopesExprList ifs
                  (merge_dicts [s, compVars pre ++ find_names t]) ++
                scopesComps post s (compVars pre ++ find_names t))))
  ∧ (∀ (s : Scope) (pre : List PComp) (x : String),
        Scope.hasName (compVars pre) x = true →
        Scope.hasName (merge_dicts [s, compVars pre]) x = true)
  ∧ (∀ (s d : Scope) (x : String), Scope.hasName s x = false →
        Scope.hasName d x = false →
        Scope.hasName (merge_dicts [s, d]) x = false)
  ∧ (∀ (s d : Scope) (t : PExpr) (x : String),
        Scope.hasName (find_names t) x = true →
        Scope.hasName (merge_dicts [s, d ++ find_names t]) x = true) := by
  refine ⟨fun elt gens s => rfl, fun elt gens s => rfl,
    fun elt gens s => rfl, fun k v gens s => rfl, ?_, ?_, ?_, ?_⟩
  · intro pre t it ifs post s
    rw [scopesComps_append pre (PComp.mk t it ifs :: post) s []]
    rw [show ([] : Scope) ++ compVars pre = compVars pre from rfl]
    rfl
  · intro s pre x h
    rw [hasName_merge]
    simp [h]
  · intro s d x hs hd
    rw [hasName_merge]
    simp [hs, hd]
  · intro s d t x h
    rw [hasName_merge]
    simp only [List.any_cons, List.any_nil, hasName_append, h]
    simp

/-- Witness for C6 at concrete inputs: in
`[(i, j) for i in src if i for j in i]` the first clause's iterable sees
neither target, its `if` sees `i`, and the second clause sees `i` but
not `j`. -/
theorem comprehension_scope_threading_witness :
    scopesComps
        ([] ++ PComp.mk (.name "i") (.name "src") [.name "i"] ::
          [PComp.mk (.name "j") (.name "i") []]) [] [] =
      scopesComps [] [] [] ++
        ((.comp (.mk (.name "i") (.name "src") [.name "i"]), []) ::
          (scopesExpr (.name "i") (merge_dicts [[], compVars []]) ++
            scopesExpr (.name "src") (merge_dicts [[], compVars []]) ++
            scopesExprList [.name "i"]
              (merge_dicts [[], compVars [] ++ find_names (.name "i")]) ++
            scopesComps [PComp.mk (.name "j") (.name "i") []] []
              (compVars [] ++ find_names (.name "i"))))
  ∧ Scope.hasName
      (merge_dicts [[], compVars [PComp.mk (.name "i") (.name "src")
        [.name "i"]]]) "i" = true
  ∧ Scope.hasName (merge_dicts [([("outer", PBind.argname "outer")] :
      Scope), []]) "i" = false := by
  refine ⟨comprehension_scope_threading.2.2.2.2.1 [] (.name "i")
      (.name "src") [.name "i"] [PComp.mk (.name "j") (.name "i") []] [],
    ?_, ?_⟩
  · exact comprehension_scope_threading.2.2.2.2.2.1 []
      [PComp.mk (.name "i") (.name "src") [.name "i"]] "i" rfl
  · exact comprehension_scope_threading.2.2.2.2.2.2.1
      [("outer", PBind.argname "outer")] [] "i" rfl rfl

/-- C8 (code bug): the with-block body's scope is extended with *all*
names found anywhere in the with items — including names merely used in
the context-manager expressions — not just the `as` targets: in
`with foo as x: marker` the body scope is `{foo, x}`, though only `x` is
bound. -/
theorem with_scope_includes_context_names :
    scopesOfName "marker" (scopesModule demoWith) = [["foo", "x"]]
  ∧ (∀ (items : List PWithItem) (body : List PStmt) (s : Scope),
      scopesStmt (.withStmt items body) s =
        (.stmt (.withStmt items body), s) ::
          (scopesItems items s ++
            scopesStmtList body
              (merge_dicts [s, find_names_items items]))) :=
  ⟨rfl, fun items body s => rfl⟩

end MacroPy
